import Mathlib

/-!
Shallow embedding of the fooyin library scanner
(`src/core/library/libraryscanner.cpp`) and proofs about its behaviour.

The scanner's external collaborators (tag readers, playlist parser,
database, filesystem) are modelled as an explicit environment record;
the scanner's own logic (file enumeration and sorting, batching,
identity matching, reconciliation, demotion of missing tracks) is
translated function by function from the source.
-/

namespace FooyinScanner

/-- Characters after the last occurrence of `c`, mirroring how
`QFileInfo::fileName` / `QFileInfo::suffix` split a path. -/
def lastSegAfter (c : Char) (l : List Char) : List Char :=
  l.foldl (fun acc ch => if ch = c then [] else acc ++ [ch]) []

/-- The file-name component of a path (text after the last slash),
as produced by `QFileInfo::fileName`. -/
def fileNameOf (p : String) : String :=
  ⟨lastSegAfter '/' p.data⟩

/-- Characters after the last dot, or `[]` when there is no dot. -/
def suffixChars (l : List Char) : List Char :=
  (l.foldl
    (fun (acc : Option (List Char)) ch =>
      if ch = '.' then some [] else acc.map (fun a => a ++ [ch]))
    none).getD []

/-- The suffix of a path (text after the last dot of the file name),
as produced by `QFileInfo::suffix`. -/
def fileSuffix (p : String) : String :=
  ⟨suffixChars (fileNameOf p).data⟩

/-- Lower-cased copy of a string, for the case-insensitive cue check. -/
def lowerStr (s : String) : String :=
  ⟨s.data.map Char.toLower⟩

/-- A track record. Modelled from the spec: the `Track` class lives
outside the scanner source, so its attributes follow §3 of the spec
(identifier and library identifier negative until assigned, file path,
sub-stream index, duration, content hash, timestamps, size, enabled
flag, cue-sheet path, archive path, presence of an embedded CUESHEET
tag). -/
structure Track where
  id : Int := -1
  libraryId : Int := -1
  filepath : String := ""
  subIndex : Nat := 0
  duration : Nat := 0
  hash : String := ""
  addedTime : Nat := 0
  modifiedTime : Nat := 0
  fileSize : Nat := 0
  enabled : Bool := false
  cuePath : String := ""
  archivePath : String := ""
  hasCueSheetTag : Bool := false
  deriving Repr, DecidableEq

/-- Modelled from the spec: `Track::filename` is the file-name
component of the track's path. -/
def Track.filename (t : Track) : String := fileNameOf t.filepath

/-- Modelled from the spec: a track is "in a library" when its library
identifier has been assigned (non-negative). -/
def Track.isInLibrary (t : Track) : Bool := t.libraryId ≥ 0

/-- Modelled from the spec: a track is "in the database" when its
identifier has been assigned (non-negative). -/
def Track.isInDatabase (t : Track) : Bool := t.id ≥ 0

/-- Modelled from the spec: a track is inside an archive when it
carries an archive path. -/
def Track.isInArchive (t : Track) : Bool := t.archivePath ≠ ""

/-- Modelled from the spec: a track has a cue association when it
carries a cue-sheet path. -/
def Track.hasCue (t : Track) : Bool := t.cuePath ≠ ""

/-- Modelled from the spec: `Track::uniqueFilepath` combines the file
path with the sub-stream index so multi-track containers stay
distinguishable. -/
def Track.uniqueFilepath (t : Track) : String :=
  t.filepath ++ "|" ++ toString t.subIndex

/-- Lookup in an association list, mirroring `unordered_map::find`. -/
def alGet {α : Type} (m : List (String × α)) (k : String) : Option α :=
  (m.find? (fun p => p.1 = k)).map (fun p => p.2)

/-- Key-membership test, mirroring `unordered_map::contains`. -/
def alContains {α : Type} (m : List (String × α)) (k : String) : Bool :=
  (alGet m k).isSome

/-- Key removal, mirroring `unordered_map::erase`. -/
def alErase {α : Type} (m : List (String × α)) (k : String) : List (String × α) :=
  m.filter (fun p => ¬ p.1 = k)

/-- Insert-if-absent, mirroring `unordered_map::emplace` (which keeps
the existing entry when the key is already present). -/
def alInsertNew {α : Type} (m : List (String × α)) (k : String) (v : α) :
    List (String × α) :=
  if alContains m k then m else m ++ [(k, v)]

/-- Append to the bucket of a key, mirroring `m[key].push_back(v)`
(operator[] default-constructs an empty bucket first). -/
def alAppend {α : Type} (m : List (String × List α)) (k : String) (v : α) :
    List (String × List α) :=
  if alContains m k then
    m.map (fun p => if p.1 = k then (p.1, p.2 ++ [v]) else p)
  else
    m ++ [(k, [v])]

/-- Insertion into a set, mirroring `std::set::emplace`. -/
def setInsert (l : List String) (x : String) : List String :=
  if x ∈ l then l else l ++ [x]

/-- A call recorded against the persisted track store. -/
inductive DbOp where
  | storeTracks (l : List Track)
  | updateTracks (l : List Track)
  | updateTrackStats (l : List Track)
  deriving Repr, DecidableEq

/-- An event emitted to observers. -/
inductive Event where
  | progress (done total : Nat)
  | scanUpdate (added updated : List Track)
  deriving Repr, DecidableEq

/-- The scanner's external collaborators and ambient inputs:
filesystem queries, tag/playlist readers, the database id lookup,
the cooperative run predicate (indexed by loop step), the current
library id and settings. All are parameters of the embedding;
the scanner's own logic never inspects them beyond these calls. -/
structure Env where
  fileExists : String → Bool
  mtimeValid : String → Bool
  mtime : String → Nat
  fsize : String → Nat
  now : Nat
  currentLibraryId : Int
  isDir : String → Bool
  dirFiles : String → List String
  settingsRestrict : List String
  settingsExclude : List String
  supportedExtensions : List String
  readTracksFn : String → List Track
  readArchiveTracksFn : String → List Track
  readPlaylistTracksFn : String → List Track
  readEmbeddedFn : Track → List Track
  readMetadataFn : Track → Option Track
  hashFn : Track → String
  idForTrack : Track → Int
  mayRun : Nat → Bool

/-- The last-modified timestamp as the scanner computes it:
milliseconds when the filesystem reports a valid time, zero otherwise. -/
def Env.lastModifiedOf (env : Env) (p : String) : Nat :=
  if env.mtimeValid p then env.mtime p else 0

/-- The per-run mutable state of `LibraryScannerPrivate`: the two
pending batches, the transient scan index maps, the scanned-file set
and total, plus logs of database calls, emitted events, warnings and
metadata re-reads (the scanner's observable external effects). -/
structure ScanState where
  tracksToStore : List Track := []
  tracksToUpdate : List Track := []
  trackPaths : List (String × List Track) := []
  existingArchives : List (String × List Track) := []
  missingFiles : List (String × Track) := []
  missingHashes : List (String × Track) := []
  existingCueTracks : List (String × List Track) := []
  missingCueTracks : List (String × List Track) := []
  cueFilesScanned : List String := []
  filesScanned : List String := []
  totalFiles : Nat := 0
  dbOps : List DbOp := []
  events : List Event := []
  warnings : Nat := 0
  readLog : List String := []
  deriving Repr, DecidableEq

/-- Whether an entry is a cue sheet for the enumerator's stable
reorder: `suffix().compare(u"cue", Qt::CaseInsensitive) == 0`. -/
def isCueEntry (p : String) : Bool := lowerStr (fileSuffix p) = "cue"

/-- Lexicographic comparison of character sequences by code point,
mirroring `QString::operator<` on full paths. -/
def strLtChars : List Char → List Char → Bool
  | _, [] => false
  | [], _ :: _ => true
  | a :: as, b :: bs =>
    if a.val.toNat < b.val.toNat then true
    else if b.val.toNat < a.val.toNat then false
    else strLtChars as bs

/-- Comparator of the first sorting pass in `sortFiles`:
alphabetical by full path. -/
def pathLt (a b : String) : Bool := strLtChars a.data b.data

/-- Comparator of the second (stable) pass in `sortFiles`: a cue entry
sorts before a non-cue entry, everything else ties. -/
def cueLt (a b : String) : Bool := isCueEntry a && !isCueEntry b

/-- Stable insertion used to model `std::sort` / `std::stable_sort`:
the new element goes after every earlier element that is strictly less
than it, and before the first one that is not. -/
def sInsert {α : Type} (lt : α → α → Bool) (x : α) : List α → List α
  | [] => [x]
  | y :: ys => if lt y x then y :: sInsert lt x ys else x :: y :: ys

/-- Stable insertion sort. -/
def sSort {α : Type} (lt : α → α → Bool) : List α → List α
  | [] => []
  | x :: xs => sInsert lt x (sSort lt xs)

/-- The anonymous-namespace `sortFiles`: sort alphabetically by full
path, then stable-sort cue entries to the front. -/
def sortFiles (files : List String) : List String :=
  sSort cueLt (sSort pathLt files)

/-- The anonymous-namespace four-argument `getFiles`: directories are
expanded recursively under the name filters (restrict minus exclude,
zero-byte files skipped); a non-directory location is appended only
when its suffix is a playlist extension; the result is passed through
`sortFiles`. -/
def getFilesUrls (env : Env) (urls : List String) (restrictExtensions : List String)
    (excludeExtensions : List String) (playlistExtensions : List String) :
    List String :=
  let nameFilters := restrictExtensions.filter (fun e => e ∉ excludeExtensions)
  let collected := urls.foldl
    (fun acc u =>
      if env.isDir u then
        acc ++ (env.dirFiles u).filter
          (fun f => nameFilters.contains (fileSuffix f) && env.fsize f != 0)
      else
        if fileSuffix u ∈ playlistExtensions then acc ++ [u] else acc)
    []
  sortFiles collected

/-- The two-argument `getFiles` overload used by library scans: one
base directory and an empty playlist-extension list. -/
def getFilesDir (env : Env) (baseDirectory : String)
    (restrictExtensions excludeExtensions : List String) : List String :=
  getFilesUrls env [baseDirectory] restrictExtensions excludeExtensions []

/-- `LibraryScannerPrivate::readFileProperties`: fill added time,
modified time and file size from the filesystem, but only for fields
still unset (zero). The lookup uses the track's current path. -/
def readFileProperties (env : Env) (t : Track) : Track :=
  let t1 := if t.addedTime = 0 then { t with addedTime := env.now } else t
  let t2 :=
    if t1.modifiedTime = 0 then
      { t1 with modifiedTime := env.lastModifiedOf t1.filepath }
    else t1
  if t2.fileSize = 0 then { t2 with fileSize := env.fsize t2.filepath } else t2

/-- `LibraryScannerPrivate::setTrackProps(track, file)`: refresh file
properties (against the old path), install the new path, adopt the
current library id when one is set, regenerate the content hash and
enable the track. -/
def setTrackProps (env : Env) (t : Track) (file : String) : Track :=
  let t1 := readFileProperties env t
  let t2 := { t1 with filepath := file }
  let t3 :=
    if env.currentLibraryId ≥ 0 then { t2 with libraryId := env.currentLibraryId }
    else t2
  let t4 := { t3 with hash := env.hashFn t3 }
  { t4 with enabled := true }

/-- The one-argument `setTrackProps(track)` overload, which reuses the
track's own path. -/
def setTrackPropsSelf (env : Env) (t : Track) : Track :=
  setTrackProps env t t.filepath

/-- `LibraryScannerPrivate::matchMissingTrack`: look the candidate's
file name up in the missing-by-filename index, then its hash in the
missing-by-hash index, each accepted only when the stored duration
equals the candidate's; otherwise return a default (invalid) track. -/
def matchMissingTrack (s : ScanState) (t : Track) : Track :=
  match alGet s.missingFiles t.filename with
  | some m =>
    if m.duration = t.duration then m
    else
      match alGet s.missingHashes t.hash with
      | some h => if h.duration = t.duration then h else {}
      | none => {}
  | none =>
    match alGet s.missingHashes t.hash with
    | some h => if h.duration = t.duration then h else {}
    | none => {}

/-- `LibraryScannerPrivate::checkBatchFinished`: when the insert queue
holds at least 250 tracks or the update queue holds more than 250, the
queues at or above 250 are written to the store, a `scanUpdate` event
carrying the insert queue is emitted, and both queues are cleared. -/
def checkBatchFinished (s : ScanState) : ScanState :=
  if s.tracksToStore.length ≥ 250 ∨ s.tracksToUpdate.length > 250 then
    let s1 :=
      if s.tracksToStore.length ≥ 250 then
        { s with dbOps := s.dbOps ++ [DbOp.storeTracks s.tracksToStore] }
      else s
    let s2 :=
      if s.tracksToUpdate.length ≥ 250 then
        { s1 with dbOps := s1.dbOps ++ [DbOp.updateTracks s.tracksToUpdate] }
      else s1
    let s3 := { s2 with events := s2.events ++ [Event.scanUpdate s.tracksToStore []] }
    { s3 with tracksToStore := [], tracksToUpdate := [] }
  else s

/-- `LibraryScannerPrivate::fileScanned`: record the file in the
scanned set and report progress with the new count. -/
def fileScanned (s : ScanState) (file : String) : ScanState :=
  let fs := setInsert s.filesScanned file
  { s with filesScanned := fs,
           events := s.events ++ [Event.progress fs.length s.totalFiles] }

/-- `LibraryScannerPrivate::updateExistingCueTracks`: re-read the cue
sheet, preserve each sub-track's id by matching on `uniqueFilepath`,
refresh its properties, queue it as an update and remember its media
path as covered by a cue. -/
def updateExistingCueTracks (env : Env) (s : ScanState) (tracks : List Track)
    (cue : String) : ScanState :=
  let existingTrackPaths :=
    tracks.foldl (fun m t => alInsertNew m t.uniqueFilepath t) ([] : List (String × Track))
  let cueTracks := env.readPlaylistTracksFn cue
  cueTracks.foldl
    (fun s ct =>
      let t0 :=
        match alGet existingTrackPaths ct.uniqueFilepath with
        | some e => { ct with id := e.id }
        | none => ct
      let t1 := setTrackPropsSelf env t0
      { s with tracksToUpdate := s.tracksToUpdate ++ [t1],
               cueFilesScanned := setInsert s.cueFilesScanned t1.filepath })
    s

/-- One step of the store-as-new loop in `addNewCueTracks`. -/
def addCueStep (env : Env) (s : ScanState) (ct : Track) : ScanState :=
  let t := setTrackPropsSelf env ct
  { s with tracksToStore := s.tracksToStore ++ [t],
           cueFilesScanned := setInsert s.cueFilesScanned t.filepath }

/-- `LibraryScannerPrivate::addNewCueTracks`: the membership test uses
the bare file name while the body looks the full cue path up with
`unordered_map::at`, which throws when the key is absent — modelled as
`none`. Otherwise the cue is read and its tracks queued as inserts. -/
def addNewCueTracks (env : Env) (s : ScanState) (cue fname : String) :
    Option ScanState :=
  if alContains s.missingCueTracks fname then
    match alGet s.missingCueTracks cue with
    | none => none
    | some refoundCueTracks =>
      some (refoundCueTracks.foldl
        (fun s t =>
          { s with tracksToUpdate := s.tracksToUpdate ++ [{ t with cuePath := cue }] })
        s)
  else
    let cueTracks := env.readPlaylistTracksFn cue
    some (cueTracks.foldl (addCueStep env) s)

/-- `LibraryScannerPrivate::readCue`: a known cue is refreshed when
stale (or when a full rescan was requested), otherwise only its media
paths are marked covered; an unknown cue goes to `addNewCueTracks`
with the cue's bare file name. -/
def readCue (env : Env) (s : ScanState) (cue : String) (onlyModified : Bool) :
    Option ScanState :=
  let lastModified := env.lastModifiedOf cue
  match alGet s.existingCueTracks cue with
  | some tracks =>
    if (tracks.headD {}).modifiedTime < lastModified ∨ onlyModified = false then
      some (updateExistingCueTracks env s tracks cue)
    else
      some (tracks.foldl
        (fun s t => { s with cueFilesScanned := setInsert s.cueFilesScanned t.filepath })
        s)
  | none => addNewCueTracks env s cue (fileNameOf cue)

/-- `LibraryScannerPrivate::updateExistingTrack`: refresh properties,
drop the (new) file name from the missing index, resolve a missing id
through the database (logging a warning and keeping the negative
sentinel when the lookup also fails), then queue either the track
itself or — when it embeds a cue sheet — its re-derived sub-tracks. -/
def updateExistingTrack (env : Env) (s : ScanState) (t : Track) (file : String) :
    ScanState :=
  let t1 := setTrackProps env t file
  let s1 := { s with missingFiles := alErase s.missingFiles t1.filename }
  let idResolved :=
    if t1.id < 0 then
      let i := env.idForTrack t1
      if i < 0 then (t1, { s1 with warnings := s1.warnings + 1 })
      else ({ t1 with id := i }, s1)
    else (t1, s1)
  let t2 := idResolved.1
  let s2 := idResolved.2
  if t2.hasCueSheetTag then
    let existingTrackPaths :=
      match alGet s2.existingCueTracks t2.filepath with
      | some tracks =>
        tracks.foldl (fun m e => alInsertNew m e.uniqueFilepath e)
          ([] : List (String × Track))
      | none => []
    let cueTracks := env.readEmbeddedFn t2
    cueTracks.foldl
      (fun s ct =>
        let ct1 :=
          match alGet existingTrackPaths ct.uniqueFilepath with
          | some e => { ct with id := e.id }
          | none => ct
        let ct2 := setTrackProps env ct1 file
        { s with tracksToUpdate := s.tracksToUpdate ++ [ct2],
                 missingHashes := alErase s.missingHashes ct2.hash })
      s2
  else
    { s2 with tracksToUpdate := s2.tracksToUpdate ++ [t2],
              missingHashes := alErase s2.missingHashes t2.hash }

/-- `LibraryScannerPrivate::readNewTrack`: read the file's tracks; a
candidate matched to a missing library/database track is re-queued as
an update under the new path (with the missing-index entries erased),
otherwise the candidate (or its embedded cue sub-tracks) is queued as
a fresh insert stamped with the current time. -/
def readNewTrack (env : Env) (s : ScanState) (file : String) : ScanState :=
  let tracks := env.readTracksFn file
  tracks.foldl
    (fun s t =>
      let refound := matchMissingTrack s t
      if refound.isInLibrary || refound.isInDatabase then
        let s1 := { s with missingHashes := alErase s.missingHashes refound.hash,
                           missingFiles := alErase s.missingFiles refound.filename }
        let r := setTrackProps env refound file
        { s1 with tracksToUpdate := s1.tracksToUpdate ++ [r] }
      else
        let t1 := setTrackPropsSelf env t
        let t2 := { t1 with addedTime := env.now }
        if t2.hasCueSheetTag then
          (env.readEmbeddedFn t2).foldl
            (fun s ct =>
              let ct1 := setTrackProps env ct file
              { s with tracksToStore := s.tracksToStore ++ [ct1] })
            s
        else
          { s with tracksToStore := s.tracksToStore ++ [t2] })
    s

/-- `LibraryScannerPrivate::readFile`: skip when the run may not
continue or the file was already covered by a cue; re-read a known
path or known archive only when disabled, foreign, stale, or on a full
rescan (recording the metadata read and stamping the new modified
time); fall through to `readNewTrack` for unknown paths. -/
def readFile (env : Env) (s : ScanState) (file : String)
    (onlyModified mayRunNow : Bool) : ScanState :=
  if mayRunNow = false then s
  else if file ∈ s.cueFilesScanned then s
  else
    let lastModified := env.lastModifiedOf file
    match alGet s.trackPaths file with
    | some ts =>
      let libraryTrack := ts.headD {}
      if libraryTrack.enabled = false ∨ libraryTrack.libraryId ≠ env.currentLibraryId
          ∨ libraryTrack.modifiedTime < lastModified ∨ onlyModified = false then
        match env.readMetadataFn libraryTrack with
        | none => { s with readLog := s.readLog ++ [file] }
        | some changed =>
          let changed1 :=
            if env.mtimeValid file then { changed with modifiedTime := lastModified }
            else changed
          updateExistingTrack env { s with readLog := s.readLog ++ [file] } changed1 file
      else s
    | none =>
      match alGet s.existingArchives file with
      | some ts =>
        let libraryTrack := ts.headD {}
        if libraryTrack.enabled = false ∨ libraryTrack.libraryId ≠ env.currentLibraryId
            ∨ libraryTrack.modifiedTime < lastModified ∨ onlyModified = false then
          (env.readArchiveTracksFn file).foldl
            (fun s t => updateExistingTrack env s t t.filepath)
            s
        else s
      | none => readNewTrack env s file

/-- One step of `populateExistingTracks`, indexing a single known
track. -/
def populateStep (env : Env) (includeMissing : Bool) (s : ScanState) (t : Track) :
    ScanState :=
  let s1 := { s with trackPaths := alAppend s.trackPaths t.filepath t }
  let s2 :=
    if t.isInArchive then
      { s1 with existingArchives := alAppend s1.existingArchives t.archivePath t }
    else s1
  if includeMissing then
    let s3 :=
      if t.hasCue then
        let cuePath := if t.cuePath = "Embedded" then t.filepath else t.cuePath
        let sc := { s2 with existingCueTracks := alAppend s2.existingCueTracks cuePath t }
        if env.fileExists cuePath = false then
          { sc with missingCueTracks := alAppend sc.missingCueTracks cuePath t }
        else sc
      else s2
    if t.isInArchive = false then
      if env.fileExists t.filepath = false then
        { s3 with missingFiles := alInsertNew s3.missingFiles t.filename t,
                  missingHashes := alInsertNew s3.missingHashes t.hash t }
      else s3
    else
      if env.fileExists t.archivePath = false then
        { s3 with missingFiles := alInsertNew s3.missingFiles t.filename t,
                  missingHashes := alInsertNew s3.missingHashes t.hash t }
      else s3
  else s2

/-- `LibraryScannerPrivate::populateExistingTracks`: build the per-run
scan index from the known tracks — path buckets, archive buckets and,
when missing tracks are included, the cue indexes (keyed by full cue
path, or the file path for embedded sheets) and the missing-by-filename
and missing-by-hash indexes for tracks whose file (or archive) no
longer exists. -/
def populateExistingTracks (env : Env) (s : ScanState) (tracks : List Track)
    (includeMissing : Bool) : ScanState :=
  tracks.foldl (populateStep env includeMissing) s

/-- One step of the demotion loop at the end of `getAndSaveAllTracks`. -/
def demoteStep (s : ScanState) (kt : String × Track) : ScanState :=
  if kt.2.isInLibrary || kt.2.enabled then
    { s with tracksToUpdate :=
        s.tracksToUpdate ++ [{ kt.2 with libraryId := -1, enabled := false }] }
  else s

/-- The demotion loop at the end of `getAndSaveAllTracks`: every track
left in the missing-by-filename index that is still in the library or
still enabled has its library id cleared to -1 and its enabled flag
cleared, and is queued as an update. -/
def demotePhase (s : ScanState) : ScanState :=
  s.missingFiles.foldl demoteStep s

/-- The unconditional final writes of `getAndSaveAllTracks` and the
final combined `scanUpdate` event, emitted only when a queue is
non-empty. The queues themselves are cleared later by `cleanupScan`. -/
def finalFlush (s : ScanState) : ScanState :=
  let s1 := { s with dbOps := s.dbOps ++ [DbOp.storeTracks s.tracksToStore,
                                          DbOp.updateTracks s.tracksToUpdate] }
  if s.tracksToStore.isEmpty = false ∨ s.tracksToUpdate.isEmpty = false then
    { s1 with events := s1.events ++ [Event.scanUpdate s.tracksToStore s.tracksToUpdate] }
  else s1

/-- The per-file loop of `getAndSaveAllTracks`: before each file the
cooperative predicate is consulted (a refusal returns immediately with
`false`); a `cue`-suffixed file goes to `readCue` (whose unchecked map
access may fault, modelled by `none`), anything else to `readFile`;
then the file is recorded as scanned and the batch check runs. -/
def scanLoop (env : Env) (onlyModified : Bool) :
    List String → Nat → ScanState → Option (ScanState × Bool)
  | [], _, s => some (s, true)
  | f :: rest, i, s =>
    if env.mayRun i = false then some (s, false)
    else
      let after :=
        if fileSuffix f = "cue" then readCue env s f onlyModified
        else some (readFile env s f onlyModified (env.mayRun i))
      match after with
      | none => none
      | some s1 => scanLoop env onlyModified rest (i + 1) (checkBatchFinished (fileScanned s1 f))

/-- The extension configuration of `getAndSaveAllTracks`: the restrict
list defaults to the supported extensions plus `cue`; the exclude list
comes from settings. -/
def effectiveRestrict (env : Env) : List String :=
  if env.settingsRestrict.isEmpty then env.supportedExtensions ++ ["cue"]
  else env.settingsRestrict

/-- `LibraryScannerPrivate::getAndSaveAllTracks`: build the index,
enumerate, report initial progress, run the per-file loop, demote the
still-missing tracks, write both queues unconditionally and emit the
final event. A cancelled loop returns `false` with no final flush. -/
def getAndSaveAllTracks (env : Env) (path : String) (tracks : List Track)
    (onlyModified : Bool) : Option (ScanState × Bool) :=
  let s0 := populateExistingTracks env {} tracks true
  let files := getFilesDir env path (effectiveRestrict env) env.settingsExclude
  let s1 := { s0 with totalFiles := files.length,
                      events := s0.events
                        ++ [Event.progress s0.filesScanned.length files.length] }
  match scanLoop env onlyModified files 0 s1 with
  | none => none
  | some (s2, ok) =>
    if ok then some (finalFlush (demotePhase s2), true) else some (s2, false)

/-- `LibraryScanner::stopThread`: when the scanner is running it emits
a progress event reporting the total file count as both the scanned
and the total figure. -/
def stopThread (running : Bool) (s : ScanState) : List Event :=
  if running then [Event.progress s.totalFiles s.totalFiles] else []

/-- Modelled from the spec: the persisted store as a bag of tracks.
`storeTracks` appends; `updateTracks` overwrites rows whose id matches
a queued update; no operation removes a row. -/
def applyDbOp (store : List Track) : DbOp → List Track
  | DbOp.storeTracks l => store ++ l
  | DbOp.updateTracks l =>
    store.map (fun x => ((l.find? (fun u => u.id = x.id)).getD x))
  | DbOp.updateTrackStats _ => store

/-- Fold a run's database calls over a store. -/
def applyDbOps (store : List Track) (ops : List DbOp) : List Track :=
  ops.foldl applyDbOp store

/-! Concrete fixtures used to evaluate the model at specific inputs. -/

/-- A trivial baseline environment; concrete scenarios override the
fields they care about. -/
def baseEnv : Env where
  fileExists := fun _ => false
  mtimeValid := fun _ => true
  mtime := fun _ => 0
  fsize := fun _ => 3
  now := 77
  currentLibraryId := 0
  isDir := fun _ => false
  dirFiles := fun _ => []
  settingsRestrict := []
  settingsExclude := ["cue"]
  supportedExtensions := ["mp3"]
  readTracksFn := fun _ => []
  readArchiveTracksFn := fun _ => []
  readPlaylistTracksFn := fun _ => []
  readEmbeddedFn := fun _ => []
  readMetadataFn := fun t => some t
  hashFn := fun _ => "h"
  idForTrack := fun _ => -1
  mayRun := fun _ => true

/-- An insert-queue filler track. -/
def exInsTrack : Track := { filepath := "/i.mp3" }

/-- A queued update that the batch check will drop. -/
def exUpdTrack : Track := { filepath := "/u.mp3", id := 3 }

/-- Queues at the moment the insert batch trips: 250 pending inserts
and one pending update. -/
def exBatchState : ScanState :=
  { tracksToStore := List.replicate 250 exInsTrack, tracksToUpdate := [exUpdTrack] }

/-- The library track of the rename scenario: id 1, path `/m/a.mp3`,
hash `h`, duration 100, modified time 5; its file is gone. -/
def exTrackT : Track :=
  { id := 1, libraryId := 0, filepath := "/m/a.mp3", hash := "h", duration := 100,
    enabled := true, modifiedTime := 5, addedTime := 2, fileSize := 9 }

/-- The rename-scenario environment: `/m` holds only `/m/b.mp3`
(modified time 10), whose decoded content matches `exTrackT`. -/
def exEnvRename : Env :=
  { baseEnv with
    fileExists := fun p => p = "/m/b.mp3"
    mtime := fun p => if p = "/m/b.mp3" then 10 else 0
    isDir := fun p => p = "/m"
    dirFiles := fun p => if p = "/m" then ["/m/b.mp3"] else []
    readTracksFn := fun p =>
      if p = "/m/b.mp3" then [{ filepath := "/m/b.mp3", hash := "h", duration := 100 }]
      else [] }

/-- First scan of the rename scenario. -/
def exRun1 : Option (ScanState × Bool) :=
  getAndSaveAllTracks exEnvRename "/m" [exTrackT] true

/-- Store contents after the first scan's database calls. -/
def exStore1 : List Track :=
  match exRun1 with
  | some p => applyDbOps [exTrackT] p.1.dbOps
  | none => []

/-- Second scan of the rename scenario, over the updated store and an
unchanged filesystem. -/
def exRun2 : Option (ScanState × Bool) :=
  getAndSaveAllTracks exEnvRename "/m" exStore1 true

/-- Cancellation scenario: two files under `/m`, the run predicate
refuses before the second file. -/
def exEnvCancel : Env :=
  { baseEnv with
    mayRun := fun i => i = 0
    isDir := fun p => p = "/m"
    dirFiles := fun p => if p = "/m" then ["/m/b.mp3", "/m/c.mp3"] else []
    readTracksFn := fun p => [{ filepath := p, hash := p, duration := 50 }] }

/-- Cancellation scenario run. -/
def exRunCancel : Option (ScanState × Bool) :=
  getAndSaveAllTracks exEnvCancel "/m" [] true

/-- A track that was soft-deleted by an earlier scan (library id -1,
disabled) and whose file is still gone. -/
def exGoneTrack : Track :=
  { id := 7, libraryId := -1, enabled := false, filepath := "/gone.mp3", hash := "h0" }

/-- Environment for the demotion scenario: nothing on disk. -/
def exEnvGone : Env :=
  { baseEnv with isDir := fun p => p = "/m" }

/-- Demotion scenario run over the already-demoted track. -/
def exRunGone : Option (ScanState × Bool) :=
  getAndSaveAllTracks exEnvGone "/m" [exGoneTrack] true

/-- A state that lists `album.cue` as a missing cue by bare file name
only — keys produced by `populateExistingTracks` are full paths, so
this arises when the bare-name membership test is consulted for the
distinct full path `/d/album.cue`. -/
def exStateC10 : ScanState :=
  { missingCueTracks := [("album.cue", [exTrackT])] }

/-- A stale track carrying an embedded cue sheet whose expansion
yields nothing. -/
def exCueTagged : Track :=
  { id := -1, filepath := "/x.flac", hasCueSheetTag := true }

/-- Environment where the database cannot resolve any id and embedded
cue expansion returns no tracks. -/
def exEnvC9 : Env :=
  { baseEnv with idForTrack := fun _ => -1, readEmbeddedFn := fun _ => [] }

/-- Candidate track read from the new file `/m/b.mp3` in the identity
matching scenario. -/
def exCand : Track := { filepath := "/m/b.mp3", hash := "h", duration := 100 }

/-- Identity-matching environment: reading `/m/b.mp3` yields the
candidate. -/
def exEnvC3 : Env :=
  { baseEnv with
    readTracksFn := fun p => if p = "/m/b.mp3" then [exCand] else [] }

/-- Scan-index state with `exTrackT` flagged missing under both
fallback keys. -/
def exStateC3 : ScanState :=
  { missingFiles := [("a.mp3", exTrackT)], missingHashes := [("h", exTrackT)] }

/-- State whose path index knows `/m/b.mp3` as an enabled, fresh track
of the current library (modified time 10). -/
def exStateC7 : ScanState :=
  { trackPaths := [("/m/b.mp3", [{ exTrackT with filepath := "/m/b.mp3", modifiedTime := 10 }])] }

/-- Environment whose filesystem reports modified time 10 for
`/m/b.mp3`. -/
def exEnvC7 : Env :=
  { baseEnv with mtime := fun p => if p = "/m/b.mp3" then 10 else 0 }

/-! Helper lemmas about the map, track and fold combinators. -/

theorem alGet_alErase_self {α : Type} (m : List (String × α)) (k : String) :
    alGet (alErase m k) k = none := by
  unfold alGet alErase
  induction m with
  | nil => rfl
  | cons p ps ih =>
    by_cases h : p.1 = k
    · simp [h]
    · simp [List.find?, h]

theorem mem_of_alGet {α : Type} {m : List (String × α)} {k : String} {v : α}
    (h : alGet m k = some v) : (k, v) ∈ m := by
  unfold alGet at h
  cases hf : m.find? (fun p => p.1 = k) with
  | none => simp [hf] at h
  | some p =>
    have hp := List.find?_some hf
    have hmem := List.mem_of_find?_eq_some hf
    simp [hf] at h
    have hk : p.1 = k := by simpa using hp
    have : p = (k, v) := by
      cases p
      simp_all
    simpa [this] using hmem

theorem setTrackProps_id (env : Env) (t : Track) (file : String) :
    (setTrackProps env t file).id = t.id := by
  unfold setTrackProps readFileProperties
  dsimp only
  repeat' split
  all_goals rfl

theorem setTrackProps_filepath (env : Env) (t : Track) (file : String) :
    (setTrackProps env t file).filepath = file := by
  unfold setTrackProps readFileProperties
  dsimp only
  repeat' split
  all_goals rfl

theorem setTrackProps_enabled (env : Env) (t : Track) (file : String) :
    (setTrackProps env t file).enabled = true := by
  unfold setTrackProps readFileProperties
  dsimp only

theorem setTrackProps_cueTag (env : Env) (t : Track) (file : String) :
    (setTrackProps env t file).hasCueSheetTag = t.hasCueSheetTag := by
  unfold setTrackProps readFileProperties
  dsimp only
  repeat' split
  all_goals rfl

theorem lastSegAfter_not_mem (c : Char) (l : List Char) :
    ∀ acc : List Char, c ∉ acc →
      c ∉ l.foldl (fun acc ch => if ch = c then [] else acc ++ [ch]) acc := by
  induction l with
  | nil => intro acc h; simpa using h
  | cons x xs ih =>
    intro acc h
    simp only [List.foldl]
    by_cases hx : x = c
    · rw [if_pos hx]
      exact ih [] (by simp)
    · rw [if_neg hx]
      refine ih (acc ++ [x]) ?_
      intro hmem
      rcases List.mem_append.mp hmem with h1 | h2
      · exact h h1
      · exact hx ((List.mem_singleton.mp h2).symm)

theorem fileNameOf_no_slash (p : String) : '/' ∉ (fileNameOf p).data := by
  unfold fileNameOf lastSegAfter
  exact lastSegAfter_not_mem '/' p.data [] (by simp)

theorem sInsert_perm {α : Type} (lt : α → α → Bool) (x : α) (l : List α) :
    (sInsert lt x l).Perm (x :: l) := by
  induction l with
  | nil => exact List.Perm.refl _
  | cons y ys ih =>
    simp only [sInsert]
    split
    · exact (ih.cons y).trans (List.Perm.swap x y ys)
    · exact List.Perm.refl _

theorem sSort_perm {α : Type} (lt : α → α → Bool) (l : List α) :
    (sSort lt l).Perm l := by
  induction l with
  | nil => exact List.Perm.refl _
  | cons x xs ih =>
    exact (sInsert_perm lt x (sSort lt xs)).trans (ih.cons x)

theorem sInsert_pairwise {α : Type} (lt : α → α → Bool)
    (hasym : ∀ a b, lt a b = true → lt b a = false)
    (htrans : ∀ a b c, lt b a = false → lt c b = false → lt c a = false)
    (x : α) (l : List α) (h : l.Pairwise (fun a b => lt b a = false)) :
    (sInsert lt x l).Pairwise (fun a b => lt b a = false) := by
  induction l with
  | nil => simp [sInsert]
  | cons y ys ih =>
    rcases List.pairwise_cons.mp h with ⟨hy, hys⟩
    simp only [sInsert]
    split
    case isTrue hlt =>
      refine List.pairwise_cons.mpr ⟨?_, ih hys⟩
      intro z hz
      rcases List.mem_cons.mp ((sInsert_perm lt x ys).mem_iff.mp hz) with h1 | h2
      · rw [h1]; exact hasym y x hlt
      · exact hy z h2
    case isFalse hnlt =>
      have hyx : lt y x = false := by
        cases hxy : lt y x with
        | true => exact absurd hxy hnlt
        | false => rfl
      refine List.pairwise_cons.mpr ⟨?_, h⟩
      intro z hz
      rcases List.mem_cons.mp hz with rfl | hzys
      · exact hyx
      · exact htrans x y z hyx (hy z hzys)

theorem sSort_pairwise {α : Type} (lt : α → α → Bool)
    (hasym : ∀ a b, lt a b = true → lt b a = false)
    (htrans : ∀ a b c, lt b a = false → lt c b = false → lt c a = false)
    (l : List α) : (sSort lt l).Pairwise (fun a b => lt b a = false) := by
  induction l with
  | nil => simp [sSort]
  | cons x xs ih => exact sInsert_pairwise lt hasym htrans x (sSort lt xs) ih

theorem strLtChars_asym : ∀ x y : List Char,
    strLtChars x y = true → strLtChars y x = false := by
  intro x
  induction x with
  | nil => intro y h; cases y <;> rfl
  | cons a as ih =>
    intro y h
    cases y with
    | nil => exact absurd h (by simp [strLtChars])
    | cons b bs =>
      simp only [strLtChars] at h ⊢
      by_cases hab : a.val.toNat < b.val.toNat
      · rw [if_neg (by omega), if_pos hab]
      · rw [if_neg hab] at h
        by_cases hba : b.val.toNat < a.val.toNat
        · rw [if_pos hba] at h
          exact absurd h (by simp)
        · rw [if_neg hba] at h
          rw [if_neg hba, if_neg hab]
          exact ih bs h

theorem strLtChars_not_trans : ∀ a b c : List Char,
    strLtChars b a = false → strLtChars c b = false → strLtChars c a = false := by
  intro a
  induction a with
  | nil => intro b c h1 h2; cases c <;> rfl
  | cons x xs ih =>
    intro b c h1 h2
    cases b with
    | nil => exact absurd h1 (by simp [strLtChars])
    | cons y ys =>
      cases c with
      | nil => exact absurd h2 (by simp [strLtChars])
      | cons z zs =>
        simp only [strLtChars] at h1 h2 ⊢
        by_cases hyx : y.val.toNat < x.val.toNat
        · rw [if_pos hyx] at h1
          exact absurd h1 (by simp)
        · rw [if_neg hyx] at h1
          by_cases hzy : z.val.toNat < y.val.toNat
          · rw [if_pos hzy] at h2
            exact absurd h2 (by simp)
          · rw [if_neg hzy] at h2
            rw [if_neg (show ¬ z.val.toNat < x.val.toNat by omega)]
            by_cases hxz : x.val.toNat < z.val.toNat
            · rw [if_pos hxz]
            · rw [if_neg hxz]
              by_cases hxy : x.val.toNat < y.val.toNat
              · exact absurd (show x.val.toNat < z.val.toNat by omega) hxz
              · rw [if_neg hxy] at h1
                by_cases hyz : y.val.toNat < z.val.toNat
                · exact absurd (show x.val.toNat < z.val.toNat by omega) hxz
                · rw [if_neg hyz] at h2
                  exact ih ys zs h1 h2

theorem pathLt_asym (a b : String) (h : pathLt a b = true) : pathLt b a = false :=
  strLtChars_asym a.data b.data h

theorem pathLt_not_trans (a b c : String) (h1 : pathLt b a = false)
    (h2 : pathLt c b = false) : pathLt c a = false :=
  strLtChars_not_trans a.data b.data c.data h1 h2

theorem sInsert_bool_pos {α : Type} (p : α → Bool) (x : α) (hx : p x = true)
    (l : List α) : sInsert (fun a b => p a && !p b) x l = x :: l := by
  cases l with
  | nil => rfl
  | cons y ys => simp [sInsert, hx]

theorem sInsert_bool_neg {α : Type} (p : α → Bool) (x : α) (hx : p x = false) :
    ∀ A B : List α, (∀ a ∈ A, p a = true) → (∀ b ∈ B, p b = false) →
      sInsert (fun a b => p a && !p b) x (A ++ B) = A ++ x :: B := by
  intro A
  induction A with
  | nil =>
    intro B _ hB
    cases B with
    | nil => rfl
    | cons b bs =>
      have hb : p b = false := hB b (List.mem_cons_self b bs)
      simp [sInsert, hb]
  | cons a as ih =>
    intro B hA hB
    have ha : p a = true := hA a (List.mem_cons_self a as)
    simp only [List.cons_append, sInsert, ha, hx, Bool.not_false, Bool.and_true,
      if_pos]
    show a :: sInsert (fun a b => p a && !p b) x (as ++ B) = a :: (as ++ x :: B)
    rw [ih B (fun a ha => hA a (List.mem_cons_of_mem _ ha)) hB]

theorem sSort_bool_partition {α : Type} (p : α → Bool) (l : List α) :
    sSort (fun a b => p a && !p b) l
      = l.filter p ++ l.filter (fun a => !p a) := by
  induction l with
  | nil => rfl
  | cons x xs ih =>
    simp only [sSort, ih]
    cases hx : p x with
    | true =>
      rw [sInsert_bool_pos p x hx]
      simp [List.filter_cons, hx]
    | false =>
      rw [sInsert_bool_neg p x hx _ _
        (fun a ha => (List.mem_filter.mp ha).2)
        (fun b hb => by simpa using (List.mem_filter.mp hb).2)]
      simp [List.filter_cons, hx]

theorem sortFiles_eq_partition (l : List String) :
    sortFiles l = (sSort pathLt l).filter isCueEntry
      ++ (sSort pathLt l).filter (fun a => !isCueEntry a) := by
  unfold sortFiles
  have h : cueLt = fun a b => isCueEntry a && !isCueEntry b := rfl
  rw [h, sSort_bool_partition]

theorem demoteStep_toUpdate_mono (s : ScanState) (kt : String × Track) :
    ∃ r, (demoteStep s kt).tracksToUpdate = s.tracksToUpdate ++ r := by
  unfold demoteStep
  split
  · exact ⟨_, rfl⟩
  · exact ⟨[], (List.append_nil _).symm⟩

theorem demFold_toUpdate_mono (entries : List (String × Track)) :
    ∀ s : ScanState,
      ∃ r, (entries.foldl demoteStep s).tracksToUpdate = s.tracksToUpdate ++ r := by
  induction entries with
  | nil => exact fun s => ⟨[], (List.append_nil _).symm⟩
  | cons kt rest ih =>
    intro s
    obtain ⟨r1, h1⟩ := demoteStep_toUpdate_mono s kt
    obtain ⟨r2, h2⟩ := ih (demoteStep s kt)
    exact ⟨r1 ++ r2, by rw [List.foldl_cons, h2, h1, List.append_assoc]⟩

theorem demFold_mem (entries : List (String × Track)) :
    ∀ (s : ScanState) (kt : String × Track), kt ∈ entries →
      (kt.2.isInLibrary || kt.2.enabled) = true →
      ({ kt.2 with libraryId := -1, enabled := false })
        ∈ (entries.foldl demoteStep s).tracksToUpdate := by
  induction entries with
  | nil => intro s kt h; cases h
  | cons e rest ih =>
    intro s kt hmem hguard
    rcases List.mem_cons.mp hmem with rfl | hrest
    · obtain ⟨r, hr⟩ := demFold_toUpdate_mono rest (demoteStep s kt)
      rw [List.foldl_cons, hr]
      refine List.mem_append_left _ ?_
      unfold demoteStep
      rw [if_pos hguard]
      exact List.mem_append_right _ (List.mem_singleton_self _)
    · exact ih (demoteStep s e) kt hrest hguard

theorem applyDbOp_id_mem (store : List Track) (op : DbOp) (x : Track)
    (hx : x ∈ store) : ∃ y, y ∈ applyDbOp store op ∧ y.id = x.id := by
  cases op with
  | storeTracks l => exact ⟨x, List.mem_append_left _ hx, rfl⟩
  | updateTrackStats l => exact ⟨x, hx, rfl⟩
  | updateTracks l =>
    refine ⟨(l.find? (fun u => u.id = x.id)).getD x, List.mem_map_of_mem _ hx, ?_⟩
    cases hf : l.find? (fun u => u.id = x.id) with
    | none => simp [hf]
    | some u =>
      have := List.find?_some hf
      simp [hf]
      exact of_decide_eq_true this

theorem applyDbOps_id_mem (ops : List DbOp) :
    ∀ (store : List Track) (x : Track), x ∈ store →
      ∃ y, y ∈ applyDbOps store ops ∧ y.id = x.id := by
  induction ops with
  | nil => exact fun store x hx => ⟨x, hx, rfl⟩
  | cons op rest ih =>
    intro store x hx
    obtain ⟨y1, hy1, hid1⟩ := applyDbOp_id_mem store op x hx
    obtain ⟨y2, hy2, hid2⟩ := ih (applyDbOp store op) y1 hy1
    exact ⟨y2, hy2, hid2.trans hid1⟩

theorem addCueFold_spec (env : Env) (l : List Track) :
    ∀ s : ScanState,
      (l.foldl (addCueStep env) s).tracksToStore
          = s.tracksToStore ++ l.map (setTrackPropsSelf env)
        ∧ (l.foldl (addCueStep env) s).tracksToUpdate = s.tracksToUpdate := by
  induction l with
  | nil => intro s; simp
  | cons t rest ih =>
    intro s
    obtain ⟨h1, h2⟩ := ih (addCueStep env s t)
    constructor
    · rw [List.foldl_cons, h1]
      show (s.tracksToStore ++ [setTrackPropsSelf env t])
          ++ rest.map (setTrackPropsSelf env) = _
      rw [List.append_assoc]
      rfl
    · rw [List.foldl_cons, h2]
      rfl

theorem alContains_map_fst {α : Type} (f : String × List α → String × List α)
    (hf : ∀ p, (f p).1 = p.1) (k : String) :
    ∀ m : List (String × List α), alContains (m.map f) k = alContains m k := by
  intro m
  induction m with
  | nil => rfl
  | cons p ps ih =>
    unfold alContains alGet
    by_cases hp : p.1 = k
    · rw [List.map_cons,
        List.find?_cons_of_pos _ (by simp [hf, hp]),
        List.find?_cons_of_pos _ (by simp [hp])]
      rfl
    · rw [List.map_cons,
        List.find?_cons_of_neg _ (by simp [hf, hp]),
        List.find?_cons_of_neg _ (by simp [hp])]
      simpa [alContains, alGet] using ih

theorem alContains_map_keyfix {α : Type} (k' k : String) (v : α)
    (m : List (String × List α)) :
    alContains (m.map (fun p => if p.1 = k' then (p.1, p.2 ++ [v]) else p)) k
      = alContains m k := by
  refine alContains_map_fst _ ?_ k m
  intro p
  split <;> rfl

theorem alContains_alAppend {α : Type} (m : List (String × List α))
    (k' k : String) (v : α)
    (h : alContains (alAppend m k' v) k = true) :
    alContains m k = true ∨ k = k' := by
  unfold alAppend at h
  split at h
  · left
    rwa [alContains_map_keyfix k' k v m] at h

  · unfold alContains alGet at h ⊢
    rw [List.find?_append] at h
    cases hf : m.find? (fun p => p.1 = k) with
    | some p => left; simp [hf]
    | none =>
      right
      rw [hf] at h
      simp only [Option.none_or] at h
      cases hk : (decide (k' = k)) with
      | true => exact (of_decide_eq_true hk).symm
      | false => simp [List.find?, hk] at h

/-! Claim theorems. -/

set_option maxRecDepth 8000 in
/-- C1: claimed — when either pending queue reaches the batch
threshold of 250, both queues are flushed to the store before being
cleared, so no queued track is ever cleared without being written.
The code falsifies this: with 250 pending inserts and one pending
update, `checkBatchFinished` issues only the `storeTracks` call, yet
clears the update queue as well — the queued update vanishes without
ever reaching the store. -/
theorem claim1_batch_drops_updates :
    (checkBatchFinished exBatchState).tracksToUpdate = []
      ∧ (checkBatchFinished exBatchState).dbOps
          = [DbOp.storeTracks (List.replicate 250 exInsTrack)]
      ∧ (∀ op ∈ (checkBatchFinished exBatchState).dbOps,
          op ≠ DbOp.updateTracks [exUpdTrack]) := by
  refine ⟨rfl, rfl, ?_⟩
  intro op hop
  have h2 : (checkBatchFinished exBatchState).dbOps
      = [DbOp.storeTracks (List.replicate 250 exInsTrack)] := rfl
  rw [h2] at hop
  rw [List.mem_singleton.mp hop]
  intro hcontra
  exact DbOp.noConfusion hcontra

/-- C8: claimed — scanning twice over an unchanged filesystem with
`onlyModified = true` queues nothing on the second run. The code
falsifies this: in the rename-recovery scenario the first run gives
the recovered track its new path but keeps its stale modified time
(`readNewTrack` never stamps the new file's time, unlike the sibling
path in `readFile`), so the second run sees the track as stale and
queues one more update. -/
theorem claim8_second_run_queues_update :
    exRun1.map (fun p => p.2) = some true
      ∧ exRun2.map (fun p => p.1.tracksToUpdate.length) = some 1 := by
  exact ⟨rfl, rfl⟩

/-- C2 counterexample: a run cancelled by the cooperative predicate
after the first of two files exits with a pending insert queue and no
database call at all — nothing queued was flushed — and `stopThread`
reports progress `2 / 2` although only one file was scanned. -/
theorem claim2_cancel_counterexample :
    exRunCancel.map (fun p => p.2) = some false
      ∧ exRunCancel.map (fun p => p.1.dbOps) = some []
      ∧ exRunCancel.map (fun p => p.1.tracksToStore.length) = some 1
      ∧ exRunCancel.map (fun p => p.1.filesScanned.length) = some 1
      ∧ exRunCancel.map (fun p => p.1.totalFiles) = some 2
      ∧ exRunCancel.map (fun p => stopThread true p.1)
          = some [Event.progress 2 2] := by
  exact ⟨rfl, rfl, rfl, rfl, rfl, rfl⟩

/-- C4 counterexample: a track flagged missing during index
construction and never recovered is claimed to always be queued as an
update; but a track that was already demoted by an earlier run
(library id -1, disabled) is skipped by the demotion loop, so the
completed run ends with an empty update queue. -/
theorem claim4_counterexample :
    exRunGone.map (fun p => (p.2, p.1.tracksToUpdate))
      = some (true, []) := by
  exact rfl

/-- C5 counterexample: a file location (`/song.mp3`) handed to the
enumerator with an empty playlist-extension list — exactly what the
library-scan overload passes — is claimed to be included directly, yet
the produced sequence is empty. -/
theorem claim5_counterexample :
    getFilesUrls exEnvRename ["/song.mp3"] ["mp3"] [] [] = []
      ∧ "/song.mp3" ∉ getFilesUrls exEnvRename ["/song.mp3"] ["mp3"] [] [] := by
  refine ⟨rfl, ?_⟩
  intro h
  rw [show getFilesUrls exEnvRename ["/song.mp3"] ["mp3"] [] []
      = ([] : List String) from rfl] at h
  cases h

/-- C9 counterexample: `updateExistingTrack` on a track with a
negative id, an unresolvable database id and an embedded cue sheet
whose expansion is empty logs the warning but appends nothing to the
update queue — the track itself is not appended as claimed. -/
theorem claim9_counterexample :
    (updateExistingTrack exEnvC9 {} exCueTagged "/x.flac").tracksToUpdate = []
      ∧ (updateExistingTrack exEnvC9 {} exCueTagged "/x.flac").warnings = 1 := by
  exact ⟨rfl, rfl⟩

/-- C2 amended: when the cooperative predicate refuses before a file,
`getAndSaveAllTracks`'s loop returns immediately with `false` and the
state exactly as it was — in particular no database call is issued for
the still-queued tracks — and `stopThread` then reports progress with
the total file count in both positions. -/
theorem claim2_cancel_amended (env : Env) (onlyModified : Bool) (f : String)
    (rest : List String) (i : Nat) (s : ScanState)
    (h : env.mayRun i = false) :
    scanLoop env onlyModified (f :: rest) i s = some (s, false)
      ∧ stopThread true s = [Event.progress s.totalFiles s.totalFiles] := by
  constructor
  · simp [scanLoop, h]
  · rfl

/-- Witness for the amended C2 at a concrete cancelled step. -/
theorem claim2_cancel_amended_witness :
    scanLoop exEnvCancel true ["/m/c.mp3"] 1 {} = some ({}, false)
      ∧ stopThread true {} = [Event.progress 0 0] :=
  claim2_cancel_amended exEnvCancel true "/m/c.mp3" [] 1 {} rfl

/-- C5 amended: a non-directory input location is included by the
enumerator exactly when its suffix is in the playlist-extension list
(so the library-scan overload, which passes an empty list, never
includes a file location); a directory input is expanded recursively
under the name filters with zero-byte entries skipped. -/
theorem claim5_file_inputs_amended (env : Env) (u : String)
    (restrict exclude playlistExts : List String) :
    (env.isDir u = false →
      getFilesUrls env [u] restrict exclude playlistExts
        = if fileSuffix u ∈ playlistExts then [u] else [])
      ∧ (env.isDir u = true →
        getFilesUrls env [u] restrict exclude playlistExts
          = sortFiles ((env.dirFiles u).filter
              (fun f => (restrict.filter (fun e => e ∉ exclude)).contains (fileSuffix f)
                && env.fsize f != 0))) := by
  constructor
  · intro h
    unfold getFilesUrls
    simp only [List.foldl_cons, List.foldl_nil, h, Bool.false_eq_true, if_false,
      List.nil_append]
    split
    · rfl
    · rfl
  · intro h
    unfold getFilesUrls
    simp only [List.foldl_cons, List.foldl_nil, h, if_true, List.nil_append]

/-- Witness for the amended C5: a lone `.m3u` file input is included,
a lone `.mp3` file input is not. -/
theorem claim5_file_inputs_witness :
    getFilesUrls exEnvC7 ["/list.m3u"] ["mp3"] [] ["m3u"] = ["/list.m3u"]
      ∧ getFilesUrls exEnvC7 ["/song.mp3"] ["mp3"] [] ["m3u"] = [] := by
  constructor
  · rw [(claim5_file_inputs_amended exEnvC7 "/list.m3u" ["mp3"] [] ["m3u"]).1 rfl]
    rfl
  · rw [(claim5_file_inputs_amended exEnvC7 "/song.mp3" ["mp3"] [] ["m3u"]).1 rfl]
    rfl

/-- C7: under only-modified mode, a file whose path is indexed to an
enabled track of the current library whose stored modified time is not
older than the filesystem's is left completely untouched by
`readFile`: the state — queues, indexes, logs of metadata reads —
is returned unchanged. -/
theorem claim7_fresh_skip (env : Env) (s : ScanState) (file : String)
    (ts : List Track)
    (hts : alGet s.trackPaths file = some ts)
    (hen : (ts.headD {}).enabled = true)
    (hlib : (ts.headD {}).libraryId = env.currentLibraryId)
    (hfresh : ¬ (ts.headD {}).modifiedTime < env.lastModifiedOf file) :
    readFile env s file true true = s := by
  unfold readFile
  rw [if_neg (by simp : ¬ (true : Bool) = false)]
  by_cases hcue : file ∈ s.cueFilesScanned
  · rw [if_pos hcue]
  · rw [if_neg hcue, hts]
    dsimp only
    have hcond : ¬ ((ts.headD {}).enabled = false
        ∨ (ts.headD {}).libraryId ≠ env.currentLibraryId
        ∨ (ts.headD {}).modifiedTime < env.lastModifiedOf file
        ∨ (true : Bool) = false) := by
      intro hor
      rcases hor with h | h | h | h
      · rw [hen] at h
        cases h
      · exact h hlib
      · exact hfresh h
      · cases h
    rw [if_neg hcond]

/-- Witness for C7 at a concrete fresh track. -/
theorem claim7_fresh_skip_witness :
    readFile exEnvC7 exStateC7 "/m/b.mp3" true true = exStateC7 :=
  claim7_fresh_skip exEnvC7 exStateC7 "/m/b.mp3"
    [{ exTrackT with filepath := "/m/b.mp3", modifiedTime := 10 }]
    rfl rfl rfl (by decide)

/-- C9 amended: when `updateExistingTrack` processes a track with a
negative id, the database lookup also fails, and the track carries no
embedded cue sheet, a warning is recorded and the track is appended to
the update queue with its negative id preserved; a track with an
embedded cue sheet has its expanded sub-tracks appended instead. -/
theorem claim9_negative_id_amended (env : Env) (s : ScanState) (t : Track)
    (file : String) (hid : t.id < 0) (hcue : t.hasCueSheetTag = false)
    (hdb : env.idForTrack (setTrackProps env t file) < 0) :
    (updateExistingTrack env s t file).warnings = s.warnings + 1
      ∧ (updateExistingTrack env s t file).tracksToUpdate
          = s.tracksToUpdate ++ [setTrackProps env t file]
      ∧ (setTrackProps env t file).id = t.id := by
  have hid1 : (setTrackProps env t file).id < 0 := by
    rw [setTrackProps_id]; exact hid
  have hcue1 : (setTrackProps env t file).hasCueSheetTag = false := by
    rw [setTrackProps_cueTag]; exact hcue
  unfold updateExistingTrack
  dsimp only
  rw [if_pos hid1, if_pos hdb]
  dsimp only
  rw [hcue1]
  exact ⟨rfl, rfl, setTrackProps_id env t file⟩

/-- Witness for the amended C9 at a concrete unresolvable track. -/
theorem claim9_negative_id_witness :
    (updateExistingTrack exEnvC9 {} { exCueTagged with hasCueSheetTag := false }
        "/x.flac").warnings = 1
      ∧ (updateExistingTrack exEnvC9 {} { exCueTagged with hasCueSheetTag := false }
          "/x.flac").tracksToUpdate
        = [] ++ [setTrackProps exEnvC9 { exCueTagged with hasCueSheetTag := false } "/x.flac"]
      ∧ (setTrackProps exEnvC9 { exCueTagged with hasCueSheetTag := false }
          "/x.flac").id = (-1 : Int) :=
  claim9_negative_id_amended exEnvC9 {} { exCueTagged with hasCueSheetTag := false }
    "/x.flac" (by decide) rfl (by decide)

theorem matchMissingTrack_file_hit (s : ScanState) (cand T : Track)
    (hmf : alGet s.missingFiles cand.filename = some T)
    (hdur : T.duration = cand.duration) : matchMissingTrack s cand = T := by
  unfold matchMissingTrack
  rw [hmf]
  dsimp only
  rw [if_pos hdur]

theorem matchMissingTrack_hash_hit (s : ScanState) (cand T : Track)
    (hmf : alGet s.missingFiles cand.filename = none)
    (hmh : alGet s.missingHashes cand.hash = some T)
    (hdur : T.duration = cand.duration) : matchMissingTrack s cand = T := by
  unfold matchMissingTrack
  rw [hmf]
  dsimp only
  rw [hmh]
  dsimp only
  rw [if_pos hdur]

theorem matchMissingTrack_miss (s : ScanState) (cand : Track)
    (h1 : ∀ m, alGet s.missingFiles cand.filename = some m → ¬ m.duration = cand.duration)
    (h2 : ∀ m, alGet s.missingHashes cand.hash = some m → ¬ m.duration = cand.duration) :
    matchMissingTrack s cand = {} := by
  unfold matchMissingTrack
  cases hmf : alGet s.missingFiles cand.filename with
  | none =>
    dsimp only
    cases hmh : alGet s.missingHashes cand.hash with
    | none => rfl
    | some m =>
      dsimp only
      rw [if_neg (h2 m hmh)]
  | some m =>
    dsimp only
    rw [if_neg (h1 m hmf)]
    cases hmh : alGet s.missingHashes cand.hash with
    | none => rfl
    | some m2 =>
      dsimp only
      rw [if_neg (h2 m2 hmh)]

theorem readNewTrack_refound (env : Env) (s : ScanState) (file : String)
    (cand T : Track) (hread : env.readTracksFn file = [cand])
    (hmatch : matchMissingTrack s cand = T)
    (hlib : (T.isInLibrary || T.isInDatabase) = true) :
    readNewTrack env s file
      = { s with missingHashes := alErase s.missingHashes T.hash,
                 missingFiles := alErase s.missingFiles T.filename,
                 tracksToUpdate := s.tracksToUpdate ++ [setTrackProps env T file] } := by
  unfold readNewTrack
  rw [hread]
  simp only [List.foldl_cons, List.foldl_nil]
  rw [hmatch, if_pos hlib]

theorem readNewTrack_new (env : Env) (s : ScanState) (file : String)
    (cand : Track) (hread : env.readTracksFn file = [cand])
    (hmatch : matchMissingTrack s cand = {})
    (hcue : cand.hasCueSheetTag = false) :
    readNewTrack env s file
      = { s with tracksToStore :=
            s.tracksToStore ++ [{ setTrackPropsSelf env cand with addedTime := env.now }] } := by
  unfold readNewTrack
  rw [hread]
  simp only [List.foldl_cons, List.foldl_nil]
  rw [hmatch, if_neg (by decide :
    ¬ (Track.isInLibrary {} || Track.isInDatabase {}) = true)]
  have hct : ({ setTrackPropsSelf env cand with addedTime := env.now } : Track).hasCueSheetTag
      = false := by
    show (setTrackPropsSelf env cand).hasCueSheetTag = false
    unfold setTrackPropsSelf
    rw [setTrackProps_cueTag]
    exact hcue
  rw [if_neg (by rw [hct]; simp :
    ¬ ({ setTrackPropsSelf env cand with addedTime := env.now } : Track).hasCueSheetTag = true)]

/-- C3: identity matching and rename recovery — a candidate whose file
name (with matching duration) is in the missing-by-filename index, or
failing that whose hash (with matching duration) is in the
missing-by-hash index, is matched to the missing track, which is then
queued as an update carrying the new path with its id preserved and is
removed from the missing index (so it is not demoted later); the
file-name lookup takes precedence; when neither key matches under
equal duration, matching returns the invalid track and the candidate
is queued as a genuinely new insert. -/
theorem claim3_identity_matching (env : Env) (s : ScanState) (file : String)
    (cand T : Track) (hread : env.readTracksFn file = [cand]) :
    (alGet s.missingFiles cand.filename = some T → T.duration = cand.duration →
        (T.isInLibrary || T.isInDatabase) = true →
      matchMissingTrack s cand = T
        ∧ (readNewTrack env s file).tracksToStore = s.tracksToStore
        ∧ (readNewTrack env s file).tracksToUpdate
            = s.tracksToUpdate ++ [setTrackProps env T file]
        ∧ (setTrackProps env T file).filepath = file
        ∧ (setTrackProps env T file).id = T.id
        ∧ alGet (readNewTrack env s file).missingFiles T.filename = none)
      ∧ (alGet s.missingFiles cand.filename = none →
         alGet s.missingHashes cand.hash = some T → T.duration = cand.duration →
          (T.isInLibrary || T.isInDatabase) = true →
        matchMissingTrack s cand = T
          ∧ (readNewTrack env s file).tracksToStore = s.tracksToStore
          ∧ (readNewTrack env s file).tracksToUpdate
              = s.tracksToUpdate ++ [setTrackProps env T file]
          ∧ (setTrackProps env T file).filepath = file
          ∧ (setTrackProps env T file).id = T.id
          ∧ alGet (readNewTrack env s file).missingFiles T.filename = none)
      ∧ ((∀ m, alGet s.missingFiles cand.filename = some m →
            ¬ m.duration = cand.duration) →
         (∀ m, alGet s.missingHashes cand.hash = some m →
            ¬ m.duration = cand.duration) →
         cand.hasCueSheetTag = false →
        matchMissingTrack s cand = {}
          ∧ (readNewTrack env s file).tracksToUpdate = s.tracksToUpdate
          ∧ (readNewTrack env s file).tracksToStore
              = s.tracksToStore
                  ++ [{ setTrackPropsSelf env cand with addedTime := env.now }]) := by
  refine ⟨?_, ?_, ?_⟩
  · intro hmf hdur hlib
    have hmatch := matchMissingTrack_file_hit s cand T hmf hdur
    have hrn := readNewTrack_refound env s file cand T hread hmatch hlib
    refine ⟨hmatch, ?_, ?_, setTrackProps_filepath env T file,
      setTrackProps_id env T file, ?_⟩
    · rw [hrn]
    · rw [hrn]
    · rw [hrn]
      exact alGet_alErase_self s.missingFiles T.filename
  · intro hmf hmh hdur hlib
    have hmatch := matchMissingTrack_hash_hit s cand T hmf hmh hdur
    have hrn := readNewTrack_refound env s file cand T hread hmatch hlib
    refine ⟨hmatch, ?_, ?_, setTrackProps_filepath env T file,
      setTrackProps_id env T file, ?_⟩
    · rw [hrn]
    · rw [hrn]
    · rw [hrn]
      exact alGet_alErase_self s.missingFiles T.filename
  · intro h1 h2 hcue
    have hmatch := matchMissingTrack_miss s cand h1 h2
    have hrn := readNewTrack_new env s file cand hread hmatch hcue
    exact ⟨hmatch, by rw [hrn], by rw [hrn]⟩

/-- Witness for C3 at the concrete rename scenario (hash-key branch). -/
theorem claim3_identity_matching_witness :
    matchMissingTrack exStateC3 exCand = exTrackT
      ∧ (readNewTrack exEnvC3 exStateC3 "/m/b.mp3").tracksToStore
          = exStateC3.tracksToStore
      ∧ (readNewTrack exEnvC3 exStateC3 "/m/b.mp3").tracksToUpdate
          = exStateC3.tracksToUpdate ++ [setTrackProps exEnvC3 exTrackT "/m/b.mp3"]
      ∧ (setTrackProps exEnvC3 exTrackT "/m/b.mp3").filepath = "/m/b.mp3"
      ∧ (setTrackProps exEnvC3 exTrackT "/m/b.mp3").id = exTrackT.id
      ∧ alGet (readNewTrack exEnvC3 exStateC3 "/m/b.mp3").missingFiles
          exTrackT.filename = none :=
  (claim3_identity_matching exEnvC3 exStateC3 "/m/b.mp3" exCand exTrackT rfl).2.1
    rfl rfl rfl (by decide)

theorem finalFlush_dbOps (s : ScanState) :
    (finalFlush s).dbOps = s.dbOps ++ [DbOp.storeTracks s.tracksToStore,
                                       DbOp.updateTracks s.tracksToUpdate] := by
  unfold finalFlush
  split <;> rfl

/-- C4 amended: after a scan, every track flagged missing and not
recovered that was still in the library or still enabled is demoted —
a copy with library id -1 and enabled cleared is queued and written by
the unconditional final `updateTracks` — while a track that was
already demoted by an earlier run is left as it is and not re-queued;
and no sequence of the scanner's store operations ever removes a
track from the persisted store. -/
theorem claim4_soft_demotion_amended (s : ScanState) (k : String) (t : Track)
    (hmf : alGet s.missingFiles k = some t)
    (hguard : (t.isInLibrary || t.enabled) = true) :
    ({ t with libraryId := -1, enabled := false } ∈ (demotePhase s).tracksToUpdate)
      ∧ DbOp.updateTracks (demotePhase s).tracksToUpdate
          ∈ (finalFlush (demotePhase s)).dbOps
      ∧ (∀ (store : List Track) (ops : List DbOp) (x : Track), x ∈ store →
          ∃ y, y ∈ applyDbOps store ops ∧ y.id = x.id) := by
  refine ⟨?_, ?_, fun store ops x hx => applyDbOps_id_mem ops store x hx⟩
  · exact demFold_mem s.missingFiles s (k, t) (mem_of_alGet hmf) hguard
  · rw [finalFlush_dbOps]
    exact List.mem_append_right _
      (List.mem_cons_of_mem _ (List.mem_singleton_self _))

/-- Witness for the amended C4 at a concrete missing enabled track. -/
theorem claim4_soft_demotion_witness :
    ({ exTrackT with libraryId := -1, enabled := false }
        ∈ (demotePhase exStateC3).tracksToUpdate)
      ∧ DbOp.updateTracks (demotePhase exStateC3).tracksToUpdate
          ∈ (finalFlush (demotePhase exStateC3)).dbOps
      ∧ (∀ (store : List Track) (ops : List DbOp) (x : Track), x ∈ store →
          ∃ y, y ∈ applyDbOps store ops ∧ y.id = x.id) :=
  claim4_soft_demotion_amended exStateC3 "a.mp3" exTrackT rfl (by decide)

/-- C6: the enumerator's ordering is deterministic and is the
alphabetical sort by full path, stably reordered so that every
case-insensitive `.cue` entry precedes every non-cue entry, with
alphabetical order preserved inside the cue group and inside the
non-cue group, and no entry gained or lost. -/
theorem claim6_sort_order (l : List String) :
    (sortFiles l).Perm l
      ∧ sortFiles l = (sSort pathLt l).filter isCueEntry
          ++ (sSort pathLt l).filter (fun a => !isCueEntry a)
      ∧ (∀ a ∈ (sSort pathLt l).filter isCueEntry, isCueEntry a = true)
      ∧ (∀ b ∈ (sSort pathLt l).filter (fun a => !isCueEntry a), isCueEntry b = false)
      ∧ ((sSort pathLt l).filter isCueEntry).Pairwise (fun a b => pathLt b a = false)
      ∧ ((sSort pathLt l).filter (fun a => !isCueEntry a)).Pairwise
          (fun a b => pathLt b a = false)
      ∧ ((sSort pathLt l).filter isCueEntry).Perm (l.filter isCueEntry)
      ∧ ((sSort pathLt l).filter (fun a => !isCueEntry a)).Perm
          (l.filter (fun a => !isCueEntry a)) := by
  have hpair := sSort_pairwise pathLt pathLt_asym pathLt_not_trans l
  have hperm := sSort_perm pathLt l
  refine ⟨?_, sortFiles_eq_partition l, ?_, ?_, ?_, ?_, ?_, ?_⟩
  · exact (sSort_perm cueLt (sSort pathLt l)).trans hperm
  · exact fun a ha => (List.mem_filter.mp ha).2
  · intro b hb
    have hb2 := (List.mem_filter.mp hb).2
    simpa using hb2
  · exact List.Pairwise.sublist (List.filter_sublist _) hpair
  · exact List.Pairwise.sublist (List.filter_sublist _) hpair
  · exact hperm.filter _
  · exact hperm.filter _

theorem alContains_exists {α : Type} {m : List (String × α)} {k : String}
    (h : alContains m k = true) : ∃ v, (k, v) ∈ m := by
  unfold alContains at h
  cases hg : alGet m k with
  | none => rw [hg] at h; cases h
  | some v => exact ⟨v, mem_of_alGet hg⟩

theorem populateStep_missingCue_eq (env : Env) (s : ScanState) (t : Track) :
    (populateStep env true s t).missingCueTracks = s.missingCueTracks
      ∨ ∃ c, (c = t.cuePath ∨ c = t.filepath)
          ∧ (populateStep env true s t).missingCueTracks
              = alAppend s.missingCueTracks c t := by
  unfold populateStep
  dsimp only
  repeat' split
  all_goals first
    | exact Or.inl rfl
    | exact Or.inr ⟨_, Or.inl rfl, rfl⟩
    | exact Or.inr ⟨_, Or.inr rfl, rfl⟩

theorem populate_missingCue_keys (env : Env) (tracks : List Track) :
    ∀ (s : ScanState) (k : String),
      alContains (populateExistingTracks env s tracks true).missingCueTracks k = true →
      alContains s.missingCueTracks k = true
        ∨ ∃ t ∈ tracks, k = t.cuePath ∨ k = t.filepath := by
  induction tracks with
  | nil => exact fun s k h => Or.inl h
  | cons t rest ih =>
    intro s k h
    have h1 := ih (populateStep env true s t) k h
    rcases h1 with h1 | ⟨t1, ht1, hk1⟩
    · rcases populateStep_missingCue_eq env s t with heq | ⟨c, hc, heq⟩
      · rw [heq] at h1
        exact Or.inl h1
      · rw [heq] at h1
        rcases alContains_alAppend _ _ _ _ h1 with h2 | h2
        · exact Or.inl h2
        · refine Or.inr ⟨t, List.mem_cons_self t rest, ?_⟩
          rcases hc with hc | hc
          · exact Or.inl (h2.trans hc)
          · exact Or.inr (h2.trans hc)
    · exact Or.inr ⟨t1, List.mem_cons_of_mem t ht1, hk1⟩

/-- C10: in `addNewCueTracks` the membership test uses the cue's bare
file name while the body looks up the full path: when the bare name is
a key but the full path is not, the unchecked `at()` faults; keys of
the missing-cue index all come from `populateExistingTracks`, which
keys it by cue path (or file path for embedded sheets), so in an
ordinary run — every key an absolute path containing a slash — the
re-link branch is never taken and the cue's tracks are re-read and
stored as new inserts, with nothing queued as an update. -/
theorem claim10_cue_mismatch (env : Env) (s : ScanState) (tracks : List Track)
    (cue k : String) :
    (alContains s.missingCueTracks (fileNameOf cue) = true →
      alGet s.missingCueTracks cue = none →
      addNewCueTracks env s cue (fileNameOf cue) = none)
      ∧ ((∀ k1 v1, (k1, v1) ∈ s.missingCueTracks → '/' ∈ k1.data) →
        ∃ s1, addNewCueTracks env s cue (fileNameOf cue) = some s1
          ∧ s1.tracksToStore = s.tracksToStore
              ++ (env.readPlaylistTracksFn cue).map (setTrackPropsSelf env)
          ∧ s1.tracksToUpdate = s.tracksToUpdate)
      ∧ (alContains (populateExistingTracks env s tracks true).missingCueTracks k
            = true →
        alContains s.missingCueTracks k = true
          ∨ ∃ t ∈ tracks, k = t.cuePath ∨ k = t.filepath) := by
  refine ⟨?_, ?_, fun h => populate_missingCue_keys env tracks s k h⟩
  · intro hc hg
    unfold addNewCueTracks
    rw [if_pos hc, hg]
  · intro hkeys
    have hnc : ¬ alContains s.missingCueTracks (fileNameOf cue) = true := by
      intro hc
      obtain ⟨v, hv⟩ := alContains_exists hc
      exact absurd (hkeys _ _ hv) (fileNameOf_no_slash cue)
    unfold addNewCueTracks
    rw [if_neg hnc]
    obtain ⟨h1, h2⟩ := addCueFold_spec env (env.readPlaylistTracksFn cue) s
    exact ⟨_, rfl, h1, h2⟩

/-- Witness for C10: the bare name `album.cue` is a key while the full
path `/d/album.cue` is not, and the lookup faults. -/
theorem claim10_cue_mismatch_witness :
    addNewCueTracks baseEnv exStateC10 "/d/album.cue"
      (fileNameOf "/d/album.cue") = none :=
  (claim10_cue_mismatch baseEnv exStateC10 [] "/d/album.cue" "x").1 rfl rfl

end FooyinScanner
